import Mathlib

/-!
# Verification of `extractAllRulesFromWikiText`

A shallow embedding, in Lean 4, of the decision logic of
`src/extractAllRulesFromWikiText.py`:

* the link classifier `is_law_rule_link` and the navigation filter
  `is_internal_navigation_link` (with the scrape loop
  `extract_law_links_from_url`),
* the Hebrew revision-date parser `fetch_latest_update_date` and the
  change gate `should_download`,
* the content sanitizer `extract_law_content` over an HTML-tree model,
* SHA-256 (`file_hash`) and the fingerprint-gated write step inside
  `save_law_contents`.

Python strings are modelled as Lean `String`/`List Char`; the filesystem is
modelled as an association list from file name to file content; the network
is modelled as explicit `Option`-valued inputs (a failed fetch is `none`).
Machine-level 32-bit arithmetic in SHA-256 is `Nat` arithmetic reduced
modulo `2^32`.
-/

/-! ## String utilities

`containsSub l pat` decides whether the character list `pat` occurs as a
contiguous substring of `l`.  This models Python's `in` operator on `str`
and `re.search` for the patterns of this program, all of which are literal
strings without regex metacharacters. -/

def containsSub (l pat : List Char) : Bool :=
  match l with
  | [] => pat.isEmpty
  | _ :: t => pat.isPrefixOf l || containsSub t pat

/-- Model of Python `str.lower()`.  The program's patterns are Hebrew
letters, which both Python's `lower` and `Char.toLower` leave unchanged;
ASCII letters are lowered identically by both. -/
def lowerChars (l : List Char) : List Char :=
  l.map Char.toLower

theorem containsSub_nil_pat (l : List Char) : containsSub l [] = true := by
  cases l <;> simp [containsSub, List.isPrefixOf]

theorem containsSub_of_isPrefixOf {l pat : List Char}
    (h : pat.isPrefixOf l = true) : containsSub l pat = true := by
  cases l with
  | nil =>
    cases pat with
    | nil => simp [containsSub]
    | cons c t => simp [List.isPrefixOf] at h
  | cons c t => simp [containsSub, h]

theorem containsSub_append_right (a : List Char) {b pat : List Char}
    (h : containsSub b pat = true) : containsSub (a ++ b) pat = true := by
  induction a with
  | nil => simpa using h
  | cons c t ih => simp [containsSub]; right; exact ih

theorem containsSub_append_left {a : List Char} (b : List Char) {pat : List Char}
    (h : containsSub a pat = true) : containsSub (a ++ b) pat = true := by
  induction a with
  | nil =>
    simp [containsSub] at h
    subst h
    exact containsSub_nil_pat b
  | cons c t ih =>
    simp [containsSub] at h ⊢
    rcases h with h | h
    · left; exact h.trans (List.prefix_append _ _)
    · right; exact ih h

/-! ## The link classifier (`is_law_rule_link`, source lines 136–183) -/

/-- The `law_patterns` list of `is_law_rule_link`, verbatim (including the
duplicated entries of the source).  Every pattern is a literal string, so
`re.search(pattern, s)` is exactly substring containment. -/
def law_patterns : List String :=
  ["חוק", "פקודת", "תקנות", "צו", "הודע", "כללי", "נוהל", "הורא",
   "הנחיות", "תקנון", "החלט", "הנחי", "היתר", "הכרז", "אכרז", "דבר",
   "נורמ", "הודע", "רשימ", "דריש", "קוו", "קביע", "רשימ", "פרט"]

/-- The three percent-encoded byte sequences (Hebrew for law / ordinance /
regulations) checked against the href in the `/wiki/` branch. -/
def url_law_terms : List String :=
  ["%D7%97%D7%95%D7%A7", "%D7%A4%D7%A7%D7%95%D7%93%D7%AA", "%D7%AA%D7%A7%D7%A0%D7%95%D7%AA"]

/-- The `combined_text = f"{href} {link_text}".lower()` value of the source. -/
def combinedText (href link_text : String) : List Char :=
  lowerChars (href.data ++ ' ' :: link_text.data)

/-- Model of `is_law_rule_link(href, link_text)`, source lines 136–183: an empty
href is classified as a law rule ("to filter them out"); otherwise the
classifier succeeds when any `law_patterns` entry occurs in the lowercased
`"{href} {link_text}"`, or when the href contains `/wiki/` together with
one of the three percent-encoded Hebrew legal terms. -/
def is_law_rule_link (href link_text : String) : Bool :=
  if href = "" then
    true
  else if law_patterns.any (fun p => containsSub (combinedText href link_text) p.data) then
    true
  else if containsSub href.data "/wiki/".data
      && url_law_terms.any (fun t => containsSub href.data t.data) then
    true
  else
    false

theorem containsSub_cons (c : Char) {l pat : List Char}
    (h : containsSub l pat = true) : containsSub (c :: l) pat = true := by
  simp [containsSub]; right; exact h

/-- Claim C2. For every href string and link-text string whose case-normalized
concatenation contains one of the fixed legal-terminology stems (whether the
stem occurs in the href, in the link text, or across the combined string),
`is_law_rule_link href linkText` returns `true`. -/
theorem is_law_rule_link_stem_true (href link_text p : String)
    (hp : p ∈ law_patterns)
    (h : containsSub (lowerChars href.data) p.data = true
         ∨ containsSub (lowerChars link_text.data) p.data = true
         ∨ containsSub (combinedText href link_text) p.data = true) :
    is_law_rule_link href link_text = true := by
  have hsplit : combinedText href link_text
      = lowerChars href.data ++ (Char.toLower ' ' :: lowerChars link_text.data) := by
    simp [combinedText, lowerChars]
  have hcomb : containsSub (combinedText href link_text) p.data = true := by
    rcases h with h | h | h
    · rw [hsplit]; exact containsSub_append_left _ h
    · rw [hsplit]
      exact containsSub_append_right _ (containsSub_cons _ h)
    · exact h
  have hany : law_patterns.any
      (fun q => containsSub (combinedText href link_text) q.data) = true :=
    List.any_eq_true.mpr ⟨p, hp, hcomb⟩
  by_cases he : href = "" <;> simp [is_law_rule_link, he, hany]

theorem is_law_rule_link_stem_true_witness :
    is_law_rule_link "/wiki/חוק_השבות" "" = true :=
  is_law_rule_link_stem_true "/wiki/חוק_השבות" "" "חוק" (by decide)
    (Or.inl (by decide))

/-- Claim C4. `is_law_rule_link` returns `true` whenever the href argument is
empty, for every value of the link-text argument (the documented
filter-out quirk of source lines 141–142). -/
theorem is_law_rule_link_empty_href (link_text : String) :
    is_law_rule_link "" link_text = true := by
  simp [is_law_rule_link]

/-! ## The navigation filter and the scrape strategy
(`is_internal_navigation_link`, source lines 185–201, and
`extract_law_links_from_url`, source lines 230–272)

The fetched listing page is modelled as the list of its `<a href=...>`
elements: raw href attribute plus visible text (BeautifulSoup's
`get_text(strip=True)`).  `urljoin(base_url, href)` for an href starting
with `/` against the origin-only base `https://he.wikisource.org` is plain
concatenation, which is how it is modelled here. -/

def navigation_patterns : List String :=
  ["action=edit", "action=history", "oldid=", "#", "Special:", "Help:",
   "Template:", "Category:", "File:", "MediaWiki:", "/w/index.php"]

/-- Model of `is_internal_navigation_link(href)`, source lines 185–201: true when any
of the navigation patterns occurs in the href. -/
def is_internal_navigation_link (href : String) : Bool :=
  navigation_patterns.any (fun p => containsSub href.data p.data)

def base_url : String := "https://he.wikisource.org"

/-- Python `str.strip()` (no argument): remove leading and trailing
whitespace.  (Python also strips a few rarer Unicode space characters;
the marker files and hrefs of this program only ever involve ASCII
whitespace, which `Char.isWhitespace` covers.) -/
def pyStrip (s : String) : String :=
  ⟨((s.data.dropWhile Char.isWhitespace).reverse.dropWhile Char.isWhitespace).reverse⟩

/-- One raw `<a>` element of the listing page. -/
structure RawLink where
  href : String
  text : String
  deriving DecidableEq

/-- One entry of the `law_links` result list of
`extract_law_links_from_url`. -/
structure LawLink where
  url : String
  text : String
  original_href : String
  deriving DecidableEq

/-- Python `str.startswith(pre)`. -/
def pyStartsWith (s pre : String) : Bool :=
  pre.data.isPrefixOf s.data

/-- The per-link body of the loop in `extract_law_links_from_url`
(source lines 244–269): strip the href; drop empty hrefs; drop internal
navigation links; resolve `/`-relative hrefs against the base and keep
absolute `http` ones, dropping the rest; finally keep the link only if the
classifier accepts it. -/
def processLink (l : RawLink) : Option LawLink :=
  let href := pyStrip l.href
  if href = "" then none
  else if is_internal_navigation_link href then none
  else if pyStartsWith href "/" then
    if is_law_rule_link href l.text then
      some ⟨base_url ++ href, l.text, href⟩
    else none
  else if pyStartsWith href "http" then
    if is_law_rule_link href l.text then
      some ⟨href, l.text, href⟩
    else none
  else none

/-- Model of `extract_law_links_from_url` over the page's link list. -/
def extract_law_links_from_url (links : List RawLink) : List LawLink :=
  links.filterMap processLink

/-- Claim C3. A link whose (stripped) href matches an internal-navigation
pattern is dropped before the classifier can run — `processLink` returns
`none` with no condition on `is_law_rule_link` — and consequently no
element of the result of `extract_law_links_from_url` has a navigation
href. -/
theorem navigation_links_excluded (l : RawLink) (links : List RawLink)
    (h : is_internal_navigation_link (pyStrip l.href) = true) :
    processLink l = none
    ∧ ∀ out ∈ extract_law_links_from_url links,
        is_internal_navigation_link out.original_href = false := by
  constructor
  · unfold processLink
    by_cases he : pyStrip l.href = "" <;> simp [he, h]
  · intro out hout
    obtain ⟨raw, _, hraw⟩ := List.mem_filterMap.mp hout
    unfold processLink at hraw
    by_cases he : pyStrip raw.href = ""
    · simp [he] at hraw
    · by_cases hn : is_internal_navigation_link (pyStrip raw.href)
      · simp [he, hn] at hraw
      · by_cases hs : pyStartsWith (pyStrip raw.href) "/"
        · by_cases hl : is_law_rule_link (pyStrip raw.href) raw.text
          · simp [he, hn, hs, hl] at hraw
            subst hraw
            simpa using hn
          · simp [he, hn, hs, hl] at hraw
        · by_cases hh : pyStartsWith (pyStrip raw.href) "http"
          · by_cases hl : is_law_rule_link (pyStrip raw.href) raw.text
            · simp [he, hn, hs, hh, hl] at hraw
              subst hraw
              simpa using hn
            · simp [he, hn, hs, hh, hl] at hraw
          · simp [he, hn, hs, hh] at hraw

theorem navigation_links_excluded_witness :
    processLink ⟨"/w/index.php?title=חוק_השבות&action=edit", "חוק השבות"⟩ = none
    ∧ is_internal_navigation_link
        (⟨base_url ++ "/wiki/חוק_השבות", "חוק השבות", "/wiki/חוק_השבות"⟩ : LawLink).original_href
        = false := by
  refine ⟨(navigation_links_excluded
      ⟨"/w/index.php?title=חוק_השבות&action=edit", "חוק השבות"⟩ [] (by decide)).1, ?_⟩
  exact (navigation_links_excluded
      ⟨"/w/index.php?title=חוק_השבות&action=edit", "חוק השבות"⟩
      [⟨"/wiki/חוק_השבות", "חוק השבות"⟩] (by decide)).2
      ⟨base_url ++ "/wiki/חוק_השבות", "חוק השבות", "/wiki/חוק_השבות"⟩
      (by decide)

/-! ## The revision-date parser and the change gate
(`fetch_latest_update_date`, source lines 57–86, and `should_download`,
source lines 89–112)

The network side of `fetch_latest_update_date` is modelled as an
`Option String` input: `none` stands for a failed fetch or a missing
`mw-changeslist-date` element, `some text` for that element's text.  The
marker file is modelled as an `Option String` (its full content, `none`
when the file does not exist), and `should_download` returns the gate
decision together with the marker content after the call. -/

def HEBREW_MONTHS : List (String × Nat) :=
  [("ינואר", 1), ("פברואר", 2), ("מרץ", 3), ("אפריל", 4), ("מאי", 5),
   ("יוני", 6), ("יולי", 7), ("אוגוסט", 8), ("ספטמבר", 9),
   ("אוקטובר", 10), ("נובמבר", 11), ("דצמבר", 12)]

/-- The value `text.split(",", 1)[1]` when a comma is present. -/
def afterComma : List Char → Option (List Char)
  | [] => none
  | c :: r => if c = ',' then some r else afterComma r

/-- The part of the regex `(\d{1,2})\s+ב([^\s]+)\s+(\d{4})` after the day
group: `\s+` then the literal `ב`, the greedy month group `([^\s]+)`,
`\s+`, and four digits.  Because a digit is not whitespace and `ב` is not
whitespace, the greedy runs admit no useful backtracking, so maximal runs
are faithful to `re` semantics. -/
def afterDay (l : List Char) : Option (String × String) :=
  match l with
  | [] => none
  | c :: r =>
    if c.isWhitespace then
      match r.dropWhile Char.isWhitespace with
      | 'ב' :: r2 =>
        match r2.span (fun d => !d.isWhitespace) with
        | (mon, r3) =>
          if mon.isEmpty then none
          else
            match r3 with
            | [] => none
            | w :: r4 =>
              if w.isWhitespace then
                match r4.dropWhile Char.isWhitespace with
                | a :: b :: c2 :: d :: _ =>
                  if a.isDigit && b.isDigit && c2.isDigit && d.isDigit then
                    some (⟨mon⟩, ⟨[a, b, c2, d]⟩)
                  else none
                | _ => none
              else none
      | _ => none
    else none

/-- Try the full date regex anchored at the current position: a two-digit
day first, then (backtracking) a one-digit day. -/
def tryAt (l : List Char) : Option (String × String × String) :=
  match l with
  | [] => none
  | c1 :: t1 =>
    if c1.isDigit then
      match t1 with
      | [] => none
      | c2 :: t2 =>
        if c2.isDigit then
          match afterDay t2 with
          | some (m, y) => some (⟨[c1, c2]⟩, m, y)
          | none =>
            match afterDay t1 with
            | some (m, y) => some (⟨[c1]⟩, m, y)
            | none => none
        else
          match afterDay t1 with
          | some (m, y) => some (⟨[c1]⟩, m, y)
          | none => none
    else none

/-- Model of `re.search`: leftmost match of the date regex. -/
def searchDate : List Char → Option (String × String × String)
  | [] => none
  | c :: r =>
    match tryAt (c :: r) with
    | some res => some res
    | none => searchDate r

def natOfDigits (l : List Char) : Nat :=
  l.foldl (fun a c => a * 10 + (c.toNat - 48)) 0

/-- Python's `f"{n:02d}"` for the day and month fields. -/
def pad2 (n : Nat) : String :=
  if n < 10 then "0" ++ toString n else toString n

/-- The parsing part of `fetch_latest_update_date` (source lines 68–83):
split at the first comma, strip, run the date regex, look the month name
up in `HEBREW_MONTHS` (failing closed on an unknown name), and format
`dd/MM/yyyy`. -/
def parseHebrewDateText (text : String) : Option String :=
  let date_part : String :=
    match afterComma text.data with
    | some rest => pyStrip ⟨rest⟩
    | none => text
  match searchDate date_part.data with
  | none => none
  | some (dayS, monS, yearS) =>
    match HEBREW_MONTHS.lookup monS with
    | none => none
    | some mo =>
      some (pad2 (natOfDigits dayS.data) ++ "/" ++ pad2 mo ++ "/"
        ++ toString (natOfDigits yearS.data))

/-- Model of `fetch_latest_update_date`: any fetch error or missing date element
(`none` input) and any parse failure yield `None`. -/
def fetch_latest_update_date (elemText : Option String) : Option String :=
  match elemText with
  | none => none
  | some t => parseHebrewDateText t

/-- Model of `should_download` (source lines 89–112) over the marker-file model:
no parsed date → proceed without touching the marker; no marker file →
write the date and proceed; otherwise compare the *stripped* stored
content with the date (`f.read().strip()`), overwriting and proceeding on
mismatch and skipping on match. -/
def should_download (latest : Option String) (marker : Option String) :
    Bool × Option String :=
  match latest with
  | none => (true, marker)
  | some d =>
    match marker with
    | none => (true, some d)
    | some content =>
      if pyStrip content ≠ d then (true, some d) else (false, some content)

/-- The composed gate: fetch-and-parse, then decide. -/
def shouldDownloadPipeline (elemText marker : Option String) :
    Bool × Option String :=
  should_download (fetch_latest_update_date elemText) marker

/-- Sanity: the documented example parse. -/
theorem parse_date_sanity :
    fetch_latest_update_date (some "16:50, 28 במרץ 2025") = some "28/03/2025" := by
  decide

/-- Claim C5, counterexample. The stored marker `"28/03/2025 "` (trailing
space) differs, as a string, from the parsed date `"28/03/2025"`, yet
`should_download` returns `false` and leaves the marker unchanged: the
code compares after `strip()`, so a formatting difference consisting of
surrounding whitespace is *not* treated as a change. -/
theorem should_download_whitespace_counterexample :
    ("28/03/2025 " : String) ≠ "28/03/2025"
    ∧ should_download (some "28/03/2025") (some "28/03/2025 ")
        = (false, some "28/03/2025 ") := by
  constructor
  · decide
  · decide

/-- Claim C5, amended. With the marker file present, `should_download`
compares the *whitespace-stripped* stored line with the freshly parsed
date: if they are equal after stripping it returns `false` and leaves the
marker unchanged; if they differ after stripping (in particular on any
date-formatting difference) it overwrites the marker with the new date
and returns `true`. -/
theorem should_download_strip_compare (content d : String) :
    (pyStrip content = d →
      should_download (some d) (some content) = (false, some content))
    ∧ (pyStrip content ≠ d →
      should_download (some d) (some content) = (true, some d)) := by
  constructor <;> intro h <;> simp [should_download, h]

theorem should_download_strip_compare_witness :
    should_download (some "28/03/2025") (some "28/03/2025") = (false, some "28/03/2025")
    ∧ should_download (some "28/03/2025") (some "27/03/2025") = (true, some "28/03/2025") :=
  ⟨(should_download_strip_compare "28/03/2025" "28/03/2025").1 (by decide),
   (should_download_strip_compare "27/03/2025" "28/03/2025").2 (by decide)⟩

/-- Claim C6. Whenever parsing the remote revision date fails for any reason
(`fetch_latest_update_date` returns `None`: failed fetch, missing element,
malformed date text, or unrecognized Hebrew month name), the gate fails
open: it returns `true` and the marker file is left untouched. -/
theorem gate_fails_open (t m : Option String)
    (h : fetch_latest_update_date t = none) :
    shouldDownloadPipeline t m = (true, m) := by
  simp [shouldDownloadPipeline, h, should_download]

theorem gate_fails_open_witness :
    shouldDownloadPipeline (some "16:50, 28 בתשרי 2025") (some "28/03/2025")
      = (true, some "28/03/2025") :=
  gate_fails_open (some "16:50, 28 בתשרי 2025") (some "28/03/2025") (by decide)

/-! ## SHA-256 and the fingerprint-gated write step
(`file_hash`, source lines 44–45, and the cache step of
`save_law_contents`, source lines 434–458)

`file_hash(content)` is `hashlib.sha256(content.encode('utf-8')).hexdigest()`.
SHA-256 is implemented below over `Nat` with explicit reduction modulo
`2^32`; the byte stream is the UTF-8 encoding of the string.  (The
implementation agrees with `hashlib` on the standard test vectors; see
`sha256_abc_vector` below.) -/

def M32 : Nat := 4294967296

def rotr32 (x n : Nat) : Nat :=
  ((x >>> n) ||| (x <<< (32 - n))) % M32

def bsig0 (x : Nat) : Nat := rotr32 x 2 ^^^ rotr32 x 13 ^^^ rotr32 x 22
def bsig1 (x : Nat) : Nat := rotr32 x 6 ^^^ rotr32 x 11 ^^^ rotr32 x 25
def ssig0 (x : Nat) : Nat := rotr32 x 7 ^^^ rotr32 x 18 ^^^ (x >>> 3)
def ssig1 (x : Nat) : Nat := rotr32 x 17 ^^^ rotr32 x 19 ^^^ (x >>> 10)

def chFun (e f g : Nat) : Nat := (e &&& f) ^^^ ((e ^^^ 4294967295) &&& g)
def majFun (a b c : Nat) : Nat := (a &&& b) ^^^ (a &&& c) ^^^ (b &&& c)

structure Hash8 where
  a : Nat
  b : Nat
  c : Nat
  d : Nat
  e : Nat
  f : Nat
  g : Nat
  h : Nat
  deriving DecidableEq

def initH : Hash8 :=
  ⟨1779033703, 3144134277, 1013904242,
   2773480762, 1359893119, 2600822924,
   528734635, 1541459225⟩

def Ksha : List Nat :=
  [1116352408, 1899447441, 3049323471, 3921009573, 961987163,
   1508970993, 2453635748, 2870763221, 3624381080, 310598401,
   607225278, 1426881987, 1925078388, 2162078206, 2614888103,
   3248222580, 3835390401, 4022224774, 264347078, 604807628,
   770255983, 1249150122, 1555081692, 1996064986, 2554220882,
   2821834349, 2952996808, 3210313671, 3336571891, 3584528711,
   113926993, 338241895, 666307205, 773529912, 1294757372,
   1396182291, 1695183700, 1986661051, 2177026350, 2456956037,
   2730485921, 2820302411, 3259730800, 3345764771, 3516065817,
   3600352804, 4094571909, 275423344, 430227734, 506948616,
   659060556, 883997877, 958139571, 1322822218, 1537002063,
   1747873779, 1955562222, 2024104815, 2227730452, 2361852424,
   2428436474, 2756734187, 3204031479, 3329325298]

def shaRound (x : Hash8) (kw : Nat) : Hash8 :=
  let t1 := (x.h + bsig1 x.e + chFun x.e x.f x.g + kw) % M32
  let t2 := (bsig0 x.a + majFun x.a x.b x.c) % M32
  ⟨(t1 + t2) % M32, x.a, x.b, x.c, (x.d + t1) % M32, x.e, x.f, x.g⟩

def extendW (ws : List Nat) : Nat → List Nat
  | 0 => ws
  | n+1 =>
    let len := ws.length
    let wt := (ssig1 (ws.getD (len - 2) 0) + ws.getD (len - 7) 0
               + ssig0 (ws.getD (len - 15) 0) + ws.getD (len - 16) 0) % M32
    extendW (ws ++ [wt]) n

def compressBlock (hs : Hash8) (block : List Nat) : Hash8 :=
  let w := extendW block 48
  let kw := List.zipWith (fun k wt => (k + wt) % M32) Ksha w
  let x := kw.foldl shaRound hs
  ⟨(hs.a + x.a) % M32, (hs.b + x.b) % M32, (hs.c + x.c) % M32, (hs.d + x.d) % M32,
   (hs.e + x.e) % M32, (hs.f + x.f) % M32, (hs.g + x.g) % M32, (hs.h + x.h) % M32⟩

def bytesToWords : List Nat → List Nat
  | b0 :: b1 :: b2 :: b3 :: rest =>
    (((b0 * 256 + b1) * 256 + b2) * 256 + b3) :: bytesToWords rest
  | _ => []

def lenBytes64 (n : Nat) : List Nat :=
  [(n >>> 56) % 256, (n >>> 48) % 256, (n >>> 40) % 256, (n >>> 32) % 256,
   (n >>> 24) % 256, (n >>> 16) % 256, (n >>> 8) % 256, n % 256]

def padBytes (msg : List Nat) : List Nat :=
  msg ++ 128 :: (List.replicate ((55 + 64 - (msg.length % 64)) % 64) 0
    ++ lenBytes64 (8 * msg.length))

def chunksGo : Nat → List Nat → List (List Nat)
  | 0, _ => []
  | n+1, l => l.take 64 :: chunksGo n (l.drop 64)

def sha256Digest (msg : List Nat) : Hash8 :=
  let padded := padBytes msg
  (chunksGo (padded.length / 64) padded).foldl
    (fun hs b => compressBlock hs (bytesToWords b)) initH

def hexChar (n : Nat) : Char :=
  if n < 10 then Char.ofNat (48 + n) else Char.ofNat (87 + n)

def wordHexChars (w : Nat) : List Char :=
  [hexChar ((w >>> 28) % 16), hexChar ((w >>> 24) % 16), hexChar ((w >>> 20) % 16),
   hexChar ((w >>> 16) % 16), hexChar ((w >>> 12) % 16), hexChar ((w >>> 8) % 16),
   hexChar ((w >>> 4) % 16), hexChar (w % 16)]

def utf8Bytes (c : Nat) : List Nat :=
  if c < 128 then [c]
  else if c < 2048 then [192 + c / 64, 128 + c % 64]
  else if c < 65536 then [224 + c / 4096, 128 + (c / 64) % 64, 128 + c % 64]
  else [240 + c / 262144, 128 + (c / 4096) % 64, 128 + (c / 64) % 64, 128 + c % 64]

def strBytes (s : String) : List Nat :=
  s.data.foldr (fun c acc => utf8Bytes c.toNat ++ acc) []

def file_hash (content : String) : String :=
  let d := sha256Digest (strBytes content)
  ⟨wordHexChars d.a ++ wordHexChars d.b ++ wordHexChars d.c ++ wordHexChars d.d
   ++ wordHexChars d.e ++ wordHexChars d.f ++ wordHexChars d.g ++ wordHexChars d.h⟩


/-- Sanity: the FIPS 180-2 test vector for `"abc"`. -/
theorem sha256_abc_vector :
    file_hash "abc" = "ba7816bf8f01cfea414140de5dae2223b00361a396177a9cb410ff61f20015ad" := by
  decide

/-! The filesystem below the output directory is an association list from
file name to file content. -/

def lookupFs : List (String × String) → String → Option String
  | [], _ => none
  | (k, v) :: r, key => if k = key then some v else lookupFs r key

def setFs : List (String × String) → String → String → List (String × String)
  | [], key, v => [(key, v)]
  | (k, w) :: r, key, v => if k = key then (key, v) :: r else (k, w) :: setFs r key v

/-- Result of the cache step for one entry: whether the HTML file was
(re)written, whether the docx conversion was invoked, and the filesystem
afterwards. -/
structure SaveStep where
  wrote : Bool
  ranConversion : Bool
  fs : List (String × String)
  deriving DecidableEq

/-- The `file_hash2` value of the source: the fingerprint of the existing file under
the output key, or `""` when no such file exists (source lines 447–451). -/
def priorHash (fs : List (String × String)) (path : String) : String :=
  match lookupFs fs path with
  | some prior => file_hash prior
  | none => ""

/-- The cache step inside `save_law_contents` (source lines 434–458):
fingerprint the freshly extracted content, fingerprint the existing file
if any; on equal fingerprints `continue` (no write, no conversion);
otherwise write the file and invoke the docx conversion. -/
def writeIfChanged (fs : List (String × String)) (path content : String) : SaveStep :=
  if file_hash content = priorHash fs path then
    ⟨false, false, fs⟩
  else
    ⟨true, true, setFs fs path content⟩

theorem lookupFs_setFs (fs : List (String × String)) (key v : String) :
    lookupFs (setFs fs key v) key = some v := by
  induction fs with
  | nil => simp [setFs, lookupFs]
  | cons p r ih =>
    obtain ⟨k, w⟩ := p
    by_cases h : k = key <;> simp [setFs, lookupFs, h, ih]

/-- Claim C1. The cache step is idempotent.  (a) If the on-disk HTML file
under the output key already has content with the same SHA-256 fingerprint
as the new sanitized HTML, the call performs no write, skips the
conversion, and leaves the filesystem untouched.  (b) Starting from a
state whose stored fingerprint differs from that of the new content (in
particular when no file exists yet, since a hex digest is never empty),
two successive calls with the same key and content write exactly once:
the first writes and converts, the second does neither. -/
theorem writeIfChanged_idempotent (fs : List (String × String)) (key content : String) :
    (∀ prior, lookupFs fs key = some prior →
      file_hash prior = file_hash content →
      writeIfChanged fs key content = ⟨false, false, fs⟩)
    ∧ (priorHash fs key ≠ file_hash content →
      (writeIfChanged fs key content).wrote = true
      ∧ (writeIfChanged fs key content).ranConversion = true
      ∧ writeIfChanged (writeIfChanged fs key content).fs key content
          = ⟨false, false, (writeIfChanged fs key content).fs⟩) := by
  constructor
  · intro prior hl hh
    have hp : priorHash fs key = file_hash content := by
      simp [priorHash, hl, hh]
    simp [writeIfChanged, hp]
  · intro hne
    have hp : ¬ (file_hash content = priorHash fs key) := fun h => hne h.symm
    have hfirst : writeIfChanged fs key content
        = ⟨true, true, setFs fs key content⟩ := by
      simp [writeIfChanged, hp]
    refine ⟨by simp [hfirst], by simp [hfirst], ?_⟩
    have hp2 : priorHash (setFs fs key content) key = file_hash content := by
      simp [priorHash, lookupFs_setFs]
    have hfs : (writeIfChanged fs key content).fs = setFs fs key content := by
      rw [hfirst]
    rw [hfs]
    simp [writeIfChanged, hp2]

theorem writeIfChanged_idempotent_witness :
    writeIfChanged [("k.htm", "BODY")] "k.htm" "BODY"
      = ⟨false, false, [("k.htm", "BODY")]⟩
    ∧ (writeIfChanged [] "k.htm" "BODY").wrote = true
    ∧ writeIfChanged (writeIfChanged [] "k.htm" "BODY").fs "k.htm" "BODY"
        = ⟨false, false, (writeIfChanged [] "k.htm" "BODY").fs⟩ :=
  ⟨(writeIfChanged_idempotent [("k.htm", "BODY")] "k.htm" "BODY").1 "BODY" rfl rfl,
   ((writeIfChanged_idempotent [] "k.htm" "BODY").2 (by decide)).1,
   ((writeIfChanged_idempotent [] "k.htm" "BODY").2 (by decide)).2.2⟩

/-! ## The save loop (`save_law_contents`, source lines 416–477)

Entries come from `extract_law_links` (the tabular strategy): each row
yields `{'c': <first column>, 'url': <article URL>}`, and the save loop
names both artifacts `f"{link_data['c']}.htm"` / `f"{link_data['c']}.docx"`.
The composition "fetch the page, extract and sanitize its content" is the
boundary parameter `contentOf : String → Option String` (URL to final HTML
string, `none` for a fetch or extraction failure, which the loop skips). -/

structure LinkData where
  c : String
  url : String
  deriving DecidableEq

/-- The mutable state of the save loop: the output directory's files, the
success counter, the HTML files written, and the docx paths handed to the
converter, in order. -/
structure SaveState where
  fs : List (String × String)
  saved : Nat
  htmWritten : List String
  docxTargets : List String
  deriving DecidableEq

def emptySaveState : SaveState := ⟨[], 0, [], []⟩

/-- The body of the per-entry loop of `save_law_contents` (source lines
426–472): extract content (skip on failure), run the fingerprint-gated
cache step keyed by `f"{c}.htm"` (skip on `Unchanged`), and on a write
also invoke the docx conversion on `f"{c}.docx"` and bump the counter. -/
def processEntry (contentOf : String → Option String) (st : SaveState)
    (e : LinkData) : SaveState :=
  match contentOf e.url with
  | none => st
  | some content =>
    let step := writeIfChanged st.fs (e.c ++ ".htm") content
    if step.wrote then
      ⟨step.fs, st.saved + 1,
       st.htmWritten ++ [e.c ++ ".htm"],
       st.docxTargets ++ [e.c ++ ".docx"]⟩
    else st

/-- Model of `save_law_contents(law_links, max_links)`: `max_links <= 1` is replaced
by `len(law_links)`, then the loop runs over `law_links[:max_links]`. -/
def save_law_contents (contentOf : String → Option String)
    (links : List LinkData) (maxLinks : Int) (st : SaveState) : SaveState :=
  (if maxLinks ≤ 1 then links else links.take maxLinks.toNat).foldl
    (processEntry contentOf) st

theorem processEntry_artifacts (contentOf : String → Option String)
    (st : SaveState) (e : LinkData) :
    ((processEntry contentOf st e).htmWritten = st.htmWritten
      ∧ (processEntry contentOf st e).docxTargets = st.docxTargets)
    ∨ ((processEntry contentOf st e).htmWritten = st.htmWritten ++ [e.c ++ ".htm"]
      ∧ (processEntry contentOf st e).docxTargets = st.docxTargets ++ [e.c ++ ".docx"]) := by
  unfold processEntry
  cases h : contentOf e.url with
  | none => left; simp
  | some content =>
    by_cases hw : (writeIfChanged st.fs (e.c ++ ".htm") content).wrote
    · right; simp [hw]
    · left; simp [hw]

theorem foldl_artifacts_named (contentOf : String → Option String)
    (links : List LinkData) (st : SaveState) (f : String) :
    (f ∈ (links.foldl (processEntry contentOf) st).htmWritten →
      f ∈ st.htmWritten ∨ f ∈ links.map (fun e => e.c ++ ".htm"))
    ∧ (f ∈ (links.foldl (processEntry contentOf) st).docxTargets →
      f ∈ st.docxTargets ∨ f ∈ links.map (fun e => e.c ++ ".docx")) := by
  induction links generalizing st with
  | nil => simp
  | cons e rest ih =>
    constructor
    · intro hmem
      have := (ih (processEntry contentOf st e)).1 (by simpa using hmem)
      rcases this with hin | hin
      · rcases processEntry_artifacts contentOf st e with ⟨h1, _⟩ | ⟨h1, _⟩
        · rw [h1] at hin; exact Or.inl hin
        · rw [h1] at hin
          rcases List.mem_append.mp hin with hin | hin
          · exact Or.inl hin
          · right; simp at hin; simp [hin]
      · right
        rcases List.mem_map.mp hin with ⟨e', he', rfl⟩
        exact List.mem_map.mpr ⟨e', List.mem_cons_of_mem _ he', rfl⟩
    · intro hmem
      have := (ih (processEntry contentOf st e)).2 (by simpa using hmem)
      rcases this with hin | hin
      · rcases processEntry_artifacts contentOf st e with ⟨_, h2⟩ | ⟨_, h2⟩
        · rw [h2] at hin; exact Or.inl hin
        · rw [h2] at hin
          rcases List.mem_append.mp hin with hin | hin
          · exact Or.inl hin
          · right; simp at hin; simp [hin]
      · right
        rcases List.mem_map.mp hin with ⟨e', he', rfl⟩
        exact List.mem_map.mpr ⟨e', List.mem_cons_of_mem _ he', rfl⟩

/-- Claim C9. Every artifact produced by `save_law_contents` (run from an
empty output state) is named by an entry's output key: every HTML file
written is `key ++ ".htm"` and every conversion target is
`key ++ ".docx"` for the key `c` of some processed entry — the key being
the spreadsheet row label carried in the entry (`link_data['c']`). -/
theorem artifacts_named_by_output_key (contentOf : String → Option String)
    (links : List LinkData) (maxLinks : Int) (f : String) :
    (f ∈ (save_law_contents contentOf links maxLinks emptySaveState).htmWritten →
      f ∈ links.map (fun e => e.c ++ ".htm"))
    ∧ (f ∈ (save_law_contents contentOf links maxLinks emptySaveState).docxTargets →
      f ∈ links.map (fun e => e.c ++ ".docx")) := by
  unfold save_law_contents
  by_cases hm : maxLinks ≤ 1
  · simp only [if_pos hm]
    constructor
    · intro hmem
      rcases (foldl_artifacts_named contentOf links emptySaveState f).1 hmem with h | h
      · simp [emptySaveState] at h
      · exact h
    · intro hmem
      rcases (foldl_artifacts_named contentOf links emptySaveState f).2 hmem with h | h
      · simp [emptySaveState] at h
      · exact h
  · simp only [if_neg hm]
    constructor
    · intro hmem
      rcases (foldl_artifacts_named contentOf (links.take maxLinks.toNat)
          emptySaveState f).1 hmem with h | h
      · simp [emptySaveState] at h
      · rcases List.mem_map.mp h with ⟨e, he, rfl⟩
        exact List.mem_map.mpr ⟨e, List.take_subset _ _ he, rfl⟩
    · intro hmem
      rcases (foldl_artifacts_named contentOf (links.take maxLinks.toNat)
          emptySaveState f).2 hmem with h | h
      · simp [emptySaveState] at h
      · rcases List.mem_map.mp h with ⟨e, he, rfl⟩
        exact List.mem_map.mpr ⟨e, List.take_subset _ _ he, rfl⟩

theorem artifacts_named_by_output_key_witness :
    ("חוק_א.htm" ∈ [(⟨"חוק_א", "u"⟩ : LinkData)].map (fun e => e.c ++ ".htm"))
    ∧ ("חוק_א.docx" ∈ [(⟨"חוק_א", "u"⟩ : LinkData)].map (fun e => e.c ++ ".docx")) :=
  ⟨(artifacts_named_by_output_key (fun _ => some "BODY") [⟨"חוק_א", "u"⟩] (-1)
      "חוק_א.htm").1 (by decide),
   (artifacts_named_by_output_key (fun _ => some "BODY") [⟨"חוק_א", "u"⟩] (-1)
      "חוק_א.docx").2 (by decide)⟩

/-- Claim C10. `max_links <= 1` (including the default `-1`, `0`, and `1`)
makes `save_law_contents` process the entire list; only `max_links >= 2`
limits processing to the first `max_links` entries. -/
theorem max_links_threshold (contentOf : String → Option String)
    (links : List LinkData) (st : SaveState) (maxLinks : Int) :
    (maxLinks ≤ 1 →
      save_law_contents contentOf links maxLinks st
        = links.foldl (processEntry contentOf) st)
    ∧ (2 ≤ maxLinks →
      save_law_contents contentOf links maxLinks st
        = (links.take maxLinks.toNat).foldl (processEntry contentOf) st) := by
  constructor
  · intro h
    simp [save_law_contents, h]
  · intro h
    have h1 : ¬ (maxLinks ≤ 1) := by omega
    simp [save_law_contents, h1]

theorem max_links_threshold_witness :
    save_law_contents (fun _ => none)
        [⟨"a", "u1"⟩, ⟨"b", "u2"⟩, ⟨"c", "u3"⟩] (-1) emptySaveState
      = [(⟨"a", "u1"⟩ : LinkData), ⟨"b", "u2"⟩, ⟨"c", "u3"⟩].foldl
          (processEntry (fun _ => none)) emptySaveState
    ∧ save_law_contents (fun _ => none)
        [⟨"a", "u1"⟩, ⟨"b", "u2"⟩, ⟨"c", "u3"⟩] 2 emptySaveState
      = ([(⟨"a", "u1"⟩ : LinkData), ⟨"b", "u2"⟩, ⟨"c", "u3"⟩].take (2 : Int).toNat).foldl
          (processEntry (fun _ => none)) emptySaveState :=
  ⟨(max_links_threshold (fun _ => none)
      [⟨"a", "u1"⟩, ⟨"b", "u2"⟩, ⟨"c", "u3"⟩] emptySaveState (-1)).1 (by decide),
   (max_links_threshold (fun _ => none)
      [⟨"a", "u1"⟩, ⟨"b", "u2"⟩, ⟨"c", "u3"⟩] emptySaveState 2).2 (by decide)⟩

/-! ## The content sanitizer (`extract_law_content`, source lines 274–339)

The parsed page is a tree of elements and text nodes.  The model keeps the
attributes this function reads or writes: tag name, `id`, the (multi-valued)
`class` attribute, and `href`; `HForest` is a child list.  `str()` /
re-parsing of the assembled template is the identity on this tree model
(the underlying parser round-trips), so the function is modelled as
tree-to-tree, with the final template shell built as a tree.

`with_lua` is `True` in the source; it is kept as a parameter and
instantiated with `true` in the claims.

One genuine partiality: in the law-number demotion step the source runs
`new_span.string = a_tag.string`.  When the anchor does not resolve to a
single string (`a_tag.string is None`), BeautifulSoup's `NavigableString`
constructor raises `TypeError`, the exception escapes
`extract_law_content`, and the caller's per-entry handler drops the entry.
The model returns `none` in exactly that situation (`stringsOk` below). -/

mutual
inductive HNode : Type where
  | htext : String → HNode
  | helem : (tag : String) → (idAttr : String) → (classes : List String) →
      (href : String) → HForest → HNode
inductive HForest : Type where
  | hnil : HForest
  | hcons : HNode → HForest → HForest
end

def tagOf : HNode → String
  | .htext _ => ""
  | .helem t _ _ _ _ => t

def idOf : HNode → String
  | .htext _ => ""
  | .helem _ i _ _ _ => i

def classesOf : HNode → List String
  | .htext _ => []
  | .helem _ _ cs _ _ => cs

/-- Target of `find_all('img')`. -/
def isImg : HNode → Bool
  | .helem t _ _ _ _ => t = "img"
  | .htext _ => false

/-- Target of the span search for class `mw-editsection`. -/
def isEditSpan : HNode → Bool
  | .helem t _ cs _ _ => t = "span" && cs.contains "mw-editsection"
  | .htext _ => false

/-- Target of the span search for class `printonly`. -/
def isPrintonlySpan : HNode → Bool
  | .helem t _ cs _ _ => t = "span" && cs.contains "printonly"
  | .htext _ => false

/-- Target of the div search for class `printfooter`. -/
def isPrintfooterDiv : HNode → Bool
  | .helem t _ cs _ _ => t = "div" && cs.contains "printfooter"
  | .htext _ => false

/-- Target of the div search for class `graytext`. -/
def isGraytextDiv : HNode → Bool
  | .helem t _ cs _ _ => t = "div" && cs.contains "graytext"
  | .htext _ => false

def isAnchor : HNode → Bool
  | .helem t _ _ _ _ => t = "a"
  | .htext _ => false

mutual
/-- Model of `find_all(pred)` followed by `decompose()` of every match:
because `find_all` searches descendants only, the root is kept and every
matching descendant is removed together with its subtree. -/
def removeAll (p : HNode → Bool) : HNode → HNode
  | .htext s => .htext s
  | .helem t i cs h ch => .helem t i cs h (removeAllF p ch)
def removeAllF (p : HNode → Bool) : HForest → HForest
  | .hnil => .hnil
  | .hcons n r => if p n then removeAllF p r else .hcons (removeAll p n) (removeAllF p r)
end

mutual
/-- Does any node of the tree (root included) satisfy `p`? -/
def anySat (p : HNode → Bool) : HNode → Bool
  | .htext s => p (.htext s)
  | .helem t i cs h ch => p (.helem t i cs h ch) || anySatF p ch
def anySatF (p : HNode → Bool) : HForest → Bool
  | .hnil => false
  | .hcons n r => anySat p n || anySatF p r
end

/-- BeautifulSoup's `Tag.string`: the single string below this element if
it has exactly one child and that child resolves to a string. -/
def nodeString : HNode → Option String
  | .htext s => some s
  | .helem _ _ _ _ (.hcons c .hnil) => nodeString c
  | .helem _ _ _ _ _ => none

/-- The replacement of one direct-child anchor of a law-number container
(source lines 315–324): a `span` carrying the anchor's classes plus
`law-number-link`, the anchor's href, and the anchor's string as its only
child.  (The `"None"` fallback is unreachable under the `stringsOk` guard
below, which models the `TypeError` the source raises in that case.) -/
def demote (n : HNode) : HNode :=
  match n with
  | .helem t i cs h ch =>
    if t = "a" then
      .helem "span" "" (cs ++ ["law-number-link"]) h
        (.hcons (.htext ((nodeString (.helem t i cs h ch)).getD "None")) .hnil)
    else n
  | .htext s => .htext s

/-- Condition of the law-number passes: a `div` carrying class
`law-number`. -/
def isLawNumber (t : String) (cs : List String) : Bool :=
  t = "div" && cs.contains "law-number"

mutual
/-- The law-number demotion pass (source lines 312–324): in every
`div.law-number`, every *direct* child anchor is replaced by its inert
span (whose only child is a text node, so nothing below it needs further
processing); all other children are processed recursively. -/
def lawStep : HNode → HNode
  | .htext s => .htext s
  | .helem t i cs h ch =>
    if isLawNumber t cs then
      .helem t i cs h (lawStepLawF ch)
    else
      .helem t i cs h (lawStepF ch)
def lawStepF : HForest → HForest
  | .hnil => .hnil
  | .hcons n r => .hcons (lawStep n) (lawStepF r)
def lawStepLawF : HForest → HForest
  | .hnil => .hnil
  | .hcons n r => .hcons (if isAnchor n then demote n else lawStep n) (lawStepLawF r)
end

mutual
/-- Predicate holding when every direct-child anchor of every law-number
container resolves to a string; otherwise the demotion pass raises
(`NavigableString(None)` is a `TypeError`). -/
def stringsOk : HNode → Bool
  | .htext _ => true
  | .helem t _ cs _ ch =>
    (if isLawNumber t cs then allStringOkF ch else true)
      && stringsOkF ch
def stringsOkF : HForest → Bool
  | .hnil => true
  | .hcons n r => stringsOk n && stringsOkF r
def allStringOkF : HForest → Bool
  | .hnil => true
  | .hcons n r => (if isAnchor n then (nodeString n).isSome else true) && allStringOkF r
end

mutual
/-- Model of `soup.find` for the div with id `mw-content-text`: the first
matching element in document order. -/
def findContentDiv : HNode → Option HNode
  | .htext _ => none
  | .helem t i cs h ch =>
    if t = "div" && i = "mw-content-text" then some (.helem t i cs h ch)
    else findContentDivF ch
def findContentDivF : HForest → Option HNode
  | .hnil => none
  | .hcons n r =>
    match findContentDiv n with
    | some res => some res
    | none => findContentDivF r
end

/-- The sanitization pipeline on the found container (source lines
288–324): drop images, then the four marker-class element families, then
(when `with_lua`) demote law-number links — failing when a law-number
anchor has no resolvable string. -/
def sanitizeContent (withLua : Bool) (mc : HNode) : Option HNode :=
  let m1 := removeAll isImg mc
  let m2 := removeAll isEditSpan m1
  let m3 := removeAll isPrintonlySpan m2
  let m4 := removeAll isPrintfooterDiv m3
  let m5 := removeAll isGraytextDiv m4
  if withLua then
    if stringsOk m5 then some (lawStep m5) else none
  else some m5

def headForest : HForest :=
  .hcons (.helem "meta" "" [] "" .hnil)
    (.hcons (.helem "meta" "" [] "" .hnil)
      (.hcons (.helem "link" "" [] "" .hnil) .hnil))

/-- The fixed document shell of the `html_template` f-string (source lines
327–337): `html` over `head` (two `meta`, one stylesheet `link`) and
`body` holding the sanitized container.  The attributes the model does not
track (`lang`, `dir`, `charset`, ...) carry no tag/id/class/href content. -/
def templateDoc (mc : HNode) : HNode :=
  .helem "html" "" [] ""
    (.hcons (.helem "head" "" [] "" headForest)
      (.hcons (.helem "body" "" [] "" (.hcons mc .hnil)) .hnil))

/-- Model of `extract_law_content`: `None` when the container is missing; otherwise
the template around the sanitized container (or a raised error from the
demotion step, also modelled as `none`). -/
def extract_law_content (withLua : Bool) (doc : HNode) : Option HNode :=
  match findContentDiv doc with
  | none => none
  | some mc =>
    match sanitizeContent withLua mc with
    | none => none
    | some m => some (templateDoc m)

/-! ### Removal lemmas -/

mutual
/-- After removing every `p`-node, no node of the result satisfies `p`
(given that the root itself does not, since `find_all` spares the root).
The hypothesis `hp` says `p` only inspects the root constructor data, true
of every removal predicate of the sanitizer. -/
theorem anySat_removeAll (p : HNode → Bool)
    (hp : ∀ t i cs h ch ch', p (.helem t i cs h ch) = p (.helem t i cs h ch')) :
    ∀ n, p n = false → anySat p (removeAll p n) = false
  | .htext s, hn => by simp [removeAll, anySat, hn]
  | .helem t i cs h ch, hn => by
    simp only [removeAll, anySat, Bool.or_eq_false_iff]
    exact ⟨by rw [hp t i cs h (removeAllF p ch) ch]; exact hn,
           anySatF_removeAllF p hp ch⟩
theorem anySatF_removeAllF (p : HNode → Bool)
    (hp : ∀ t i cs h ch ch', p (.helem t i cs h ch) = p (.helem t i cs h ch')) :
    ∀ l, anySatF p (removeAllF p l) = false
  | .hnil => by simp [removeAllF, anySatF]
  | .hcons n r => by
    by_cases hn : p n
    · simp only [removeAllF, if_pos hn]
      exact anySatF_removeAllF p hp r
    · simp only [removeAllF, if_neg hn, anySatF, Bool.or_eq_false_iff]
      exact ⟨anySat_removeAll p hp n (by simpa using hn),
             anySatF_removeAllF p hp r⟩
end

mutual
/-- Removing `p`-nodes cannot create a `q`-node (for root-only `q`). -/
theorem anySat_removeAll_other (p q : HNode → Bool)
    (hq : ∀ t i cs h ch ch', q (.helem t i cs h ch) = q (.helem t i cs h ch')) :
    ∀ n, anySat q n = false → anySat q (removeAll p n) = false
  | .htext s, hn => by simpa [removeAll, anySat] using hn
  | .helem t i cs h ch, hn => by
    simp only [anySat, Bool.or_eq_false_iff] at hn
    simp only [removeAll, anySat, Bool.or_eq_false_iff]
    exact ⟨by rw [hq t i cs h (removeAllF p ch) ch]; exact hn.1,
           anySatF_removeAllF_other p q hq ch hn.2⟩
theorem anySatF_removeAllF_other (p q : HNode → Bool)
    (hq : ∀ t i cs h ch ch', q (.helem t i cs h ch) = q (.helem t i cs h ch')) :
    ∀ l, anySatF q l = false → anySatF q (removeAllF p l) = false
  | .hnil, _ => by simp [removeAllF, anySatF]
  | .hcons n r, hl => by
    simp only [anySatF, Bool.or_eq_false_iff] at hl
    by_cases hn : p n
    · simp only [removeAllF, if_pos hn]
      exact anySatF_removeAllF_other p q hq r hl.2
    · simp only [removeAllF, if_neg hn, anySatF, Bool.or_eq_false_iff]
      exact ⟨anySat_removeAll_other p q hq n hl.1,
             anySatF_removeAllF_other p q hq r hl.2⟩
end

theorem rootFalse_of_anySat {p : HNode → Bool} {n : HNode}
    (h : anySat p n = false) : p n = false := by
  cases n with
  | htext s => simpa [anySat] using h
  | helem t i cs hr ch =>
    simp only [anySat, Bool.or_eq_false_iff] at h
    exact h.1

mutual
/-- Removal is the identity on a tree containing no `p`-node at all. -/
theorem removeAll_id (p : HNode → Bool) :
    ∀ n, anySat p n = false → removeAll p n = n
  | .htext _, _ => by simp [removeAll]
  | .helem t i cs h ch, hn => by
    simp only [anySat, Bool.or_eq_false_iff] at hn
    simp only [removeAll]
    rw [removeAllF_id p ch hn.2]
theorem removeAllF_id (p : HNode → Bool) :
    ∀ l, anySatF p l = false → removeAllF p l = l
  | .hnil, _ => by simp [removeAllF]
  | .hcons n r, hl => by
    simp only [anySatF, Bool.or_eq_false_iff] at hl
    simp only [removeAllF, if_neg (by simp [rootFalse_of_anySat hl.1] : ¬ p n = true)]
    rw [removeAll_id p n hl.1, removeAllF_id p r hl.2]
end

/-! ### The anchor-class side condition

The demoted span inherits the anchor's classes
(`a_tag.get('class', []) + ['law-number-link']`), so an anchor carrying
one of the *span* removal marker classes resurfaces as a marker-class span
in the output.  `goodAnchors` rules that out: every direct-child anchor of
every law-number container carries neither `mw-editsection` nor
`printonly`. -/

def okAnchorClasses : HNode → Bool
  | .htext _ => true
  | .helem t _ cs _ _ =>
    if t = "a" then
      !(cs.contains "mw-editsection") && !(cs.contains "printonly")
    else true

mutual
def goodAnchors : HNode → Bool
  | .htext _ => true
  | .helem t _ cs _ ch =>
    (if isLawNumber t cs then allOkF ch else true)
      && goodAnchorsF ch
def goodAnchorsF : HForest → Bool
  | .hnil => true
  | .hcons n r => goodAnchors n && goodAnchorsF r
def allOkF : HForest → Bool
  | .hnil => true
  | .hcons n r => okAnchorClasses n && allOkF r
end

theorem okAnchorClasses_removeAll (p : HNode → Bool) (n : HNode) :
    okAnchorClasses (removeAll p n) = okAnchorClasses n := by
  cases n <;> simp [removeAll, okAnchorClasses]

mutual
theorem goodAnchors_removeAll (p : HNode → Bool) :
    ∀ n, goodAnchors n = true → goodAnchors (removeAll p n) = true
  | .htext _, _ => by simp [removeAll, goodAnchors]
  | .helem t i cs h ch, hn => by
    simp only [goodAnchors, Bool.and_eq_true] at hn
    simp only [removeAll, goodAnchors, Bool.and_eq_true]
    refine ⟨?_, goodAnchorsF_removeAllF p ch hn.2⟩
    by_cases hc : isLawNumber t cs = true
    · rw [if_pos hc] at hn ⊢
      exact allOkF_removeAllF p ch hn.1
    · rw [if_neg hc]
theorem goodAnchorsF_removeAllF (p : HNode → Bool) :
    ∀ l, goodAnchorsF l = true → goodAnchorsF (removeAllF p l) = true
  | .hnil, _ => by simp [removeAllF, goodAnchorsF]
  | .hcons n r, hl => by
    simp only [goodAnchorsF, Bool.and_eq_true] at hl
    by_cases hn : p n
    · simp only [removeAllF, if_pos hn]
      exact goodAnchorsF_removeAllF p r hl.2
    · simp only [removeAllF, if_neg hn, goodAnchorsF, Bool.and_eq_true]
      exact ⟨goodAnchors_removeAll p n hl.1, goodAnchorsF_removeAllF p r hl.2⟩
theorem allOkF_removeAllF (p : HNode → Bool) :
    ∀ l, allOkF l = true → allOkF (removeAllF p l) = true
  | .hnil, _ => by simp [removeAllF, allOkF]
  | .hcons n r, hl => by
    simp only [allOkF, Bool.and_eq_true] at hl
    by_cases hn : p n
    · simp only [removeAllF, if_pos hn]
      exact allOkF_removeAllF p r hl.2
    · simp only [removeAllF, if_neg hn, allOkF, Bool.and_eq_true]
      exact ⟨by rw [okAnchorClasses_removeAll]; exact hl.1,
             allOkF_removeAllF p r hl.2⟩
end

/-! ### Law-step lemmas -/

theorem isAnchor_lawStep (n : HNode) : isAnchor (lawStep n) = isAnchor n := by
  cases n with
  | htext s => rfl
  | helem t i cs h ch =>
    simp only [lawStep]
    split <;> rfl

theorem lawStep_demote_anchor (n : HNode) (ha : isAnchor n = true) :
    lawStep (demote n) = demote n ∧ isAnchor (demote n) = false := by
  cases n with
  | htext s => simp [isAnchor] at ha
  | helem t i cs h ch =>
    have ht : t = "a" := by simpa [isAnchor] using ha
    subst ht
    constructor
    · simp [demote, lawStep, lawStepF, isLawNumber]
    · simp [demote, isAnchor]

mutual
/-- The law step cannot create a `q`-node when `q` is root-only, never
holds of text nodes, and never holds of a demoted span whose anchor had
acceptable classes. -/
theorem anySat_lawStep (q : HNode → Bool)
    (hq : ∀ t i cs h ch ch', q (.helem t i cs h ch) = q (.helem t i cs h ch'))
    (hqt : ∀ s, q (.htext s) = false)
    (hdem : ∀ cs h s, cs.contains "mw-editsection" = false →
        cs.contains "printonly" = false →
        q (.helem "span" "" (cs ++ ["law-number-link"]) h
            (.hcons (.htext s) .hnil)) = false) :
    ∀ n, goodAnchors n = true → anySat q n = false → anySat q (lawStep n) = false
  | .htext s, _, _ => by simp [lawStep, anySat, hqt]
  | .helem t i cs h ch, hg, hn => by
    simp only [goodAnchors, Bool.and_eq_true] at hg
    simp only [anySat, Bool.or_eq_false_iff] at hn
    by_cases hc : isLawNumber t cs = true
    · simp only [lawStep, if_pos hc, anySat, Bool.or_eq_false_iff]
      refine ⟨by rw [hq t i cs h _ ch]; exact hn.1, ?_⟩
      have hok : allOkF ch = true := by
        have := hg.1
        rwa [if_pos hc] at this
      exact anySatF_lawStepLawF q hq hqt hdem ch hok hg.2 hn.2
    · simp only [lawStep, if_neg hc, anySat, Bool.or_eq_false_iff]
      exact ⟨by rw [hq t i cs h _ ch]; exact hn.1,
             anySatF_lawStepF q hq hqt hdem ch hg.2 hn.2⟩
theorem anySatF_lawStepF (q : HNode → Bool)
    (hq : ∀ t i cs h ch ch', q (.helem t i cs h ch) = q (.helem t i cs h ch'))
    (hqt : ∀ s, q (.htext s) = false)
    (hdem : ∀ cs h s, cs.contains "mw-editsection" = false →
        cs.contains "printonly" = false →
        q (.helem "span" "" (cs ++ ["law-number-link"]) h
            (.hcons (.htext s) .hnil)) = false) :
    ∀ l, goodAnchorsF l = true → anySatF q l = false →
      anySatF q (lawStepF l) = false
  | .hnil, _, _ => by simp [lawStepF, anySatF]
  | .hcons n r, hg, hl => by
    simp only [goodAnchorsF, Bool.and_eq_true] at hg
    simp only [anySatF, Bool.or_eq_false_iff] at hl
    simp only [lawStepF, anySatF, Bool.or_eq_false_iff]
    exact ⟨anySat_lawStep q hq hqt hdem n hg.1 hl.1,
           anySatF_lawStepF q hq hqt hdem r hg.2 hl.2⟩
theorem anySatF_lawStepLawF (q : HNode → Bool)
    (hq : ∀ t i cs h ch ch', q (.helem t i cs h ch) = q (.helem t i cs h ch'))
    (hqt : ∀ s, q (.htext s) = false)
    (hdem : ∀ cs h s, cs.contains "mw-editsection" = false →
        cs.contains "printonly" = false →
        q (.helem "span" "" (cs ++ ["law-number-link"]) h
            (.hcons (.htext s) .hnil)) = false) :
    ∀ l, allOkF l = true → goodAnchorsF l = true → anySatF q l = false →
      anySatF q (lawStepLawF l) = false
  | .hnil, _, _, _ => by simp [lawStepLawF, anySatF]
  | .hcons n r, hok, hg, hl => by
    simp only [allOkF, Bool.and_eq_true] at hok
    simp only [goodAnchorsF, Bool.and_eq_true] at hg
    simp only [anySatF, Bool.or_eq_false_iff] at hl
    simp only [lawStepLawF, anySatF, Bool.or_eq_false_iff]
    refine ⟨?_, anySatF_lawStepLawF q hq hqt hdem r hok.2 hg.2 hl.2⟩
    by_cases ha : isAnchor n = true
    · rw [if_pos ha]
      cases n with
      | htext s => simp [isAnchor] at ha
      | helem t i cs h ch =>
        have ht : t = "a" := by simpa [isAnchor] using ha
        subst ht
        have hcls : cs.contains "mw-editsection" = false
            ∧ cs.contains "printonly" = false := by
          have h1 := hok.1
          simpa [okAnchorClasses, Bool.not_eq_true'] using h1
        have hspan := hdem cs h ((nodeString (.helem "a" i cs h ch)).getD "None")
          hcls.1 hcls.2
        simp [demote, anySat, anySatF, hqt, hspan]
    · rw [if_neg ha]
      exact anySat_lawStep q hq hqt hdem n hg.1 hl.1
end

mutual
theorem lawStep_idem : ∀ n, lawStep (lawStep n) = lawStep n
  | .htext s => by simp [lawStep]
  | .helem t i cs h ch => by
    by_cases hc : isLawNumber t cs = true
    · simp only [lawStep, if_pos hc]
      rw [lawStepLawF_idem ch]
    · simp only [lawStep, if_neg hc]
      rw [lawStepF_idem ch]
theorem lawStepF_idem : ∀ l, lawStepF (lawStepF l) = lawStepF l
  | .hnil => by simp [lawStepF]
  | .hcons n r => by
    simp only [lawStepF]
    rw [lawStep_idem n, lawStepF_idem r]
theorem lawStepLawF_idem : ∀ l, lawStepLawF (lawStepLawF l) = lawStepLawF l
  | .hnil => by simp [lawStepLawF]
  | .hcons n r => by
    simp only [lawStepLawF]
    rw [lawStepLawF_idem r]
    congr 1
    by_cases ha : isAnchor n = true
    · rw [if_pos ha]
      obtain ⟨h1, h2⟩ := lawStep_demote_anchor n ha
      rw [if_neg (by simp [h2])]
      exact h1
    · rw [if_neg ha]
      rw [if_neg (by simp [isAnchor_lawStep, ha] : ¬ isAnchor (lawStep n) = true)]
      exact lawStep_idem n
end

mutual
/-- After the law step no law-number container has a direct-child anchor
at all, so `stringsOk` holds of every law-step output. -/
theorem stringsOk_lawStep : ∀ n, stringsOk (lawStep n) = true
  | .htext _ => by simp [lawStep, stringsOk]
  | .helem t i cs h ch => by
    by_cases hc : isLawNumber t cs = true
    · simp only [lawStep, if_pos hc, stringsOk, if_pos hc, Bool.and_eq_true]
      exact ⟨allStringOkF_lawStepLawF ch, stringsOkF_lawStepLawF ch⟩
    · simp only [lawStep, if_neg hc, stringsOk, if_neg hc, Bool.and_eq_true]
      exact ⟨trivial, stringsOkF_lawStepF ch⟩
theorem stringsOkF_lawStepF : ∀ l, stringsOkF (lawStepF l) = true
  | .hnil => by simp [lawStepF, stringsOkF]
  | .hcons n r => by
    simp only [lawStepF, stringsOkF, Bool.and_eq_true]
    exact ⟨stringsOk_lawStep n, stringsOkF_lawStepF r⟩
theorem stringsOkF_lawStepLawF : ∀ l, stringsOkF (lawStepLawF l) = true
  | .hnil => by simp [lawStepLawF, stringsOkF]
  | .hcons n r => by
    simp only [lawStepLawF, stringsOkF, Bool.and_eq_true]
    refine ⟨?_, stringsOkF_lawStepLawF r⟩
    by_cases ha : isAnchor n = true
    · rw [if_pos ha]
      cases n with
      | htext s => simp [isAnchor] at ha
      | helem t i cs h ch =>
        have ht : t = "a" := by simpa [isAnchor] using ha
        subst ht
        simp [demote, stringsOk, stringsOkF, isLawNumber]
    · rw [if_neg ha]
      exact stringsOk_lawStep n
theorem allStringOkF_lawStepLawF : ∀ l, allStringOkF (lawStepLawF l) = true
  | .hnil => by simp [lawStepLawF, allStringOkF]
  | .hcons n r => by
    simp only [lawStepLawF, allStringOkF, Bool.and_eq_true]
    refine ⟨?_, allStringOkF_lawStepLawF r⟩
    by_cases ha : isAnchor n = true
    · rw [if_pos ha]
      rw [if_neg (by simp [(lawStep_demote_anchor n ha).2])]
    · rw [if_neg ha]
      rw [if_neg (by simp [isAnchor_lawStep, ha] : ¬ isAnchor (lawStep n) = true)]
end

/-! ### Instances of the side conditions for the five removal predicates -/

theorem contains_append_false {cs ds : List String} {a : String}
    (h1 : cs.contains a = false) (h2 : ds.contains a = false) :
    (cs ++ ds).contains a = false := by
  induction cs with
  | nil => simpa using h2
  | cons x r ih =>
    simp only [List.contains_cons, Bool.or_eq_false_iff] at h1
    simp only [List.cons_append, List.contains_cons, Bool.or_eq_false_iff]
    exact ⟨h1.1, ih h1.2⟩

theorem isEditSpan_demoted (cs : List String) (h s : String)
    (h1 : cs.contains "mw-editsection" = false) :
    isEditSpan (.helem "span" "" (cs ++ ["law-number-link"]) h
      (.hcons (.htext s) .hnil)) = false := by
  simp only [isEditSpan]
  rw [contains_append_false h1 (by simp)]
  simp

theorem isPrintonlySpan_demoted (cs : List String) (h s : String)
    (h2 : cs.contains "printonly" = false) :
    isPrintonlySpan (.helem "span" "" (cs ++ ["law-number-link"]) h
      (.hcons (.htext s) .hnil)) = false := by
  simp only [isPrintonlySpan]
  rw [contains_append_false h2 (by simp)]
  simp

/-! ### Children-level corollaries used by the fixpoint argument -/

def childrenOf : HNode → HForest
  | .htext _ => .hnil
  | .helem _ _ _ _ ch => ch

theorem childrenOf_removeAll (p : HNode → Bool) (n : HNode) :
    childrenOf (removeAll p n) = removeAllF p (childrenOf n) := by
  cases n <;> rfl

theorem removeAll_eq_of_childrenClear (p : HNode → Bool) (n : HNode)
    (h : anySatF p (childrenOf n) = false) : removeAll p n = n := by
  cases n with
  | htext s => rfl
  | helem t i cs hr ch =>
    simp only [childrenOf] at h
    simp only [removeAll]
    rw [removeAllF_id p ch h]

theorem anySatF_children_lawStep (q : HNode → Bool)
    (hq : ∀ t i cs h ch ch', q (.helem t i cs h ch) = q (.helem t i cs h ch'))
    (hqt : ∀ s, q (.htext s) = false)
    (hdem : ∀ cs h s, cs.contains "mw-editsection" = false →
        cs.contains "printonly" = false →
        q (.helem "span" "" (cs ++ ["law-number-link"]) h
            (.hcons (.htext s) .hnil)) = false)
    (n : HNode) (hg : goodAnchors n = true)
    (hch : anySatF q (childrenOf n) = false) :
    anySatF q (childrenOf (lawStep n)) = false := by
  cases n with
  | htext s => simp [lawStep, childrenOf, anySatF]
  | helem t i cs h ch =>
    simp only [goodAnchors, Bool.and_eq_true] at hg
    simp only [childrenOf] at hch
    by_cases hc : isLawNumber t cs = true
    · simp only [lawStep, if_pos hc, childrenOf]
      have hok : allOkF ch = true := by
        have h1 := hg.1
        rwa [if_pos hc] at h1
      exact anySatF_lawStepLawF q hq hqt hdem ch hok hg.2 hch
    · simp only [lawStep, if_neg hc, childrenOf]
      exact anySatF_lawStepF q hq hqt hdem ch hg.2 hch

/-! ### Locating the content container -/

mutual
/-- The found container inherits `goodAnchors` and is a `div` with id
`mw-content-text`. -/
theorem findContentDiv_good :
    ∀ n, goodAnchors n = true → ∀ mc, findContentDiv n = some mc →
      goodAnchors mc = true ∧ tagOf mc = "div" ∧ idOf mc = "mw-content-text"
  | .htext _, _, mc, hf => by simp [findContentDiv] at hf
  | .helem t i cs h ch, hg, mc, hf => by
    simp only [findContentDiv] at hf
    by_cases hc : (t = "div" && i = "mw-content-text") = true
    · rw [if_pos hc] at hf
      obtain rfl : HNode.helem t i cs h ch = mc := Option.some.inj hf
      have hc2 : t = "div" ∧ i = "mw-content-text" := by simpa using hc
      exact ⟨hg, by simp [tagOf, hc2.1], by simp [idOf, hc2.2]⟩
    · rw [if_neg hc] at hf
      have hgf : goodAnchorsF ch = true := by
        simp only [goodAnchors, Bool.and_eq_true] at hg
        exact hg.2
      exact findContentDivF_good ch hgf mc hf
theorem findContentDivF_good :
    ∀ l, goodAnchorsF l = true → ∀ mc, findContentDivF l = some mc →
      goodAnchors mc = true ∧ tagOf mc = "div" ∧ idOf mc = "mw-content-text"
  | .hnil, _, mc, hf => by simp [findContentDivF] at hf
  | .hcons n r, hg, mc, hf => by
    simp only [goodAnchorsF, Bool.and_eq_true] at hg
    simp only [findContentDivF] at hf
    cases hn : findContentDiv n with
    | some res =>
      rw [hn] at hf
      obtain rfl : res = mc := Option.some.inj hf
      exact findContentDiv_good n hg.1 res hn
    | none =>
      rw [hn] at hf
      exact findContentDivF_good r hg.2 mc hf
end

theorem findContentDiv_self (mc : HNode) (ht : tagOf mc = "div")
    (hi : idOf mc = "mw-content-text") : findContentDiv mc = some mc := by
  cases mc with
  | htext s => simp [tagOf] at ht
  | helem t i cs h ch =>
    simp only [tagOf] at ht
    simp only [idOf] at hi
    subst ht; subst hi
    simp [findContentDiv]

theorem tagOf_removeAll (p : HNode → Bool) (n : HNode) :
    tagOf (removeAll p n) = tagOf n := by cases n <;> rfl

theorem idOf_removeAll (p : HNode → Bool) (n : HNode) :
    idOf (removeAll p n) = idOf n := by cases n <;> rfl

theorem classesOf_removeAll (p : HNode → Bool) (n : HNode) :
    classesOf (removeAll p n) = classesOf n := by cases n <;> rfl

theorem tagOf_lawStep (n : HNode) : tagOf (lawStep n) = tagOf n := by
  cases n with
  | htext s => rfl
  | helem t i cs h ch => simp only [lawStep]; split <;> rfl

theorem idOf_lawStep (n : HNode) : idOf (lawStep n) = idOf n := by
  cases n with
  | htext s => rfl
  | helem t i cs h ch => simp only [lawStep]; split <;> rfl

theorem classesOf_lawStep (n : HNode) : classesOf (lawStep n) = classesOf n := by
  cases n with
  | htext s => rfl
  | helem t i cs h ch => simp only [lawStep]; split <;> rfl

/-! ### The sanitized container -/

/-- Workhorse fact about a successful sanitization: the resulting container
has no image / marker-class node anywhere below it, is a fixed point of
the law step, passes the `stringsOk` guard, and keeps the root's tag, id
and classes. -/
theorem sanitize_children_clear (mc m' : HNode)
    (hg : goodAnchors mc = true)
    (hs : sanitizeContent true mc = some m') :
    anySatF isImg (childrenOf m') = false
    ∧ anySatF isEditSpan (childrenOf m') = false
    ∧ anySatF isPrintonlySpan (childrenOf m') = false
    ∧ anySatF isPrintfooterDiv (childrenOf m') = false
    ∧ anySatF isGraytextDiv (childrenOf m') = false
    ∧ lawStep m' = m' ∧ stringsOk m' = true
    ∧ tagOf m' = tagOf mc ∧ idOf m' = idOf mc ∧ classesOf m' = classesOf mc := by
  have hq_img : ∀ t i cs h ch ch',
      isImg (.helem t i cs h ch) = isImg (.helem t i cs h ch') :=
    fun _ _ _ _ _ _ => rfl
  have hq_edit : ∀ t i cs h ch ch',
      isEditSpan (.helem t i cs h ch) = isEditSpan (.helem t i cs h ch') :=
    fun _ _ _ _ _ _ => rfl
  have hq_print : ∀ t i cs h ch ch',
      isPrintonlySpan (.helem t i cs h ch) = isPrintonlySpan (.helem t i cs h ch') :=
    fun _ _ _ _ _ _ => rfl
  have hq_foot : ∀ t i cs h ch ch',
      isPrintfooterDiv (.helem t i cs h ch) = isPrintfooterDiv (.helem t i cs h ch') :=
    fun _ _ _ _ _ _ => rfl
  have hq_gray : ∀ t i cs h ch ch',
      isGraytextDiv (.helem t i cs h ch) = isGraytextDiv (.helem t i cs h ch') :=
    fun _ _ _ _ _ _ => rfl
  have hdem_img : ∀ (cs : List String) (h s : String),
      cs.contains "mw-editsection" = false → cs.contains "printonly" = false →
      isImg (.helem "span" "" (cs ++ ["law-number-link"]) h
        (.hcons (.htext s) .hnil)) = false := fun _ _ _ _ _ => by simp [isImg]
  have hdem_edit : ∀ (cs : List String) (h s : String),
      cs.contains "mw-editsection" = false → cs.contains "printonly" = false →
      isEditSpan (.helem "span" "" (cs ++ ["law-number-link"]) h
        (.hcons (.htext s) .hnil)) = false :=
    fun cs h s h1 _ => isEditSpan_demoted cs h s h1
  have hdem_print : ∀ (cs : List String) (h s : String),
      cs.contains "mw-editsection" = false → cs.contains "printonly" = false →
      isPrintonlySpan (.helem "span" "" (cs ++ ["law-number-link"]) h
        (.hcons (.htext s) .hnil)) = false :=
    fun cs h s _ h2 => isPrintonlySpan_demoted cs h s h2
  have hdem_foot : ∀ (cs : List String) (h s : String),
      cs.contains "mw-editsection" = false → cs.contains "printonly" = false →
      isPrintfooterDiv (.helem "span" "" (cs ++ ["law-number-link"]) h
        (.hcons (.htext s) .hnil)) = false := fun _ _ _ _ _ => by simp [isPrintfooterDiv]
  have hdem_gray : ∀ (cs : List String) (h s : String),
      cs.contains "mw-editsection" = false → cs.contains "printonly" = false →
      isGraytextDiv (.helem "span" "" (cs ++ ["law-number-link"]) h
        (.hcons (.htext s) .hnil)) = false := fun _ _ _ _ _ => by simp [isGraytextDiv]
  simp only [sanitizeContent] at hs
  set m1 := removeAll isImg mc with hm1
  set m2 := removeAll isEditSpan m1 with hm2
  set m3 := removeAll isPrintonlySpan m2 with hm3
  set m4 := removeAll isPrintfooterDiv m3 with hm4
  set m5 := removeAll isGraytextDiv m4 with hm5
  by_cases hok : stringsOk m5 = true
  · rw [if_pos True.intro, if_pos hok] at hs
    have hm' : lawStep m5 = m' := Option.some.inj hs
    have hg1 : goodAnchors m1 = true := goodAnchors_removeAll _ _ hg
    have hg2 : goodAnchors m2 = true := goodAnchors_removeAll _ _ hg1
    have hg3 : goodAnchors m3 = true := goodAnchors_removeAll _ _ hg2
    have hg4 : goodAnchors m4 = true := goodAnchors_removeAll _ _ hg3
    have hg5 : goodAnchors m5 = true := goodAnchors_removeAll _ _ hg4
    -- images
    have ha1 : anySatF isImg (childrenOf m1) = false := by
      rw [hm1, childrenOf_removeAll]
      exact anySatF_removeAllF isImg hq_img (childrenOf mc)
    have ha2 : anySatF isImg (childrenOf m2) = false := by
      rw [hm2, childrenOf_removeAll]
      exact anySatF_removeAllF_other _ _ hq_img _ ha1
    have ha3 : anySatF isImg (childrenOf m3) = false := by
      rw [hm3, childrenOf_removeAll]
      exact anySatF_removeAllF_other _ _ hq_img _ ha2
    have ha4 : anySatF isImg (childrenOf m4) = false := by
      rw [hm4, childrenOf_removeAll]
      exact anySatF_removeAllF_other _ _ hq_img _ ha3
    have ha5 : anySatF isImg (childrenOf m5) = false := by
      rw [hm5, childrenOf_removeAll]
      exact anySatF_removeAllF_other _ _ hq_img _ ha4
    have haF : anySatF isImg (childrenOf m') = false := by
      rw [← hm']
      exact anySatF_children_lawStep isImg hq_img (fun _ => rfl) hdem_img m5 hg5 ha5
    -- edit-section spans
    have hb2 : anySatF isEditSpan (childrenOf m2) = false := by
      rw [hm2, childrenOf_removeAll]
      exact anySatF_removeAllF isEditSpan hq_edit (childrenOf m1)
    have hb3 : anySatF isEditSpan (childrenOf m3) = false := by
      rw [hm3, childrenOf_removeAll]
      exact anySatF_removeAllF_other _ _ hq_edit _ hb2
    have hb4 : anySatF isEditSpan (childrenOf m4) = false := by
      rw [hm4, childrenOf_removeAll]
      exact anySatF_removeAllF_other _ _ hq_edit _ hb3
    have hb5 : anySatF isEditSpan (childrenOf m5) = false := by
      rw [hm5, childrenOf_removeAll]
      exact anySatF_removeAllF_other _ _ hq_edit _ hb4
    have hbF : anySatF isEditSpan (childrenOf m') = false := by
      rw [← hm']
      exact anySatF_children_lawStep isEditSpan hq_edit (fun _ => rfl) hdem_edit m5 hg5 hb5
    -- print-only spans
    have hc3 : anySatF isPrintonlySpan (childrenOf m3) = false := by
      rw [hm3, childrenOf_removeAll]
      exact anySatF_removeAllF isPrintonlySpan hq_print (childrenOf m2)
    have hc4 : anySatF isPrintonlySpan (childrenOf m4) = false := by
      rw [hm4, childrenOf_removeAll]
      exact anySatF_removeAllF_other _ _ hq_print _ hc3
    have hc5 : anySatF isPrintonlySpan (childrenOf m5) = false := by
      rw [hm5, childrenOf_removeAll]
      exact anySatF_removeAllF_other _ _ hq_print _ hc4
    have hcF : anySatF isPrintonlySpan (childrenOf m') = false := by
      rw [← hm']
      exact anySatF_children_lawStep isPrintonlySpan hq_print (fun _ => rfl) hdem_print m5 hg5 hc5
    -- print-footer divs
    have hd4 : anySatF isPrintfooterDiv (childrenOf m4) = false := by
      rw [hm4, childrenOf_removeAll]
      exact anySatF_removeAllF isPrintfooterDiv hq_foot (childrenOf m3)
    have hd5 : anySatF isPrintfooterDiv (childrenOf m5) = false := by
      rw [hm5, childrenOf_removeAll]
      exact anySatF_removeAllF_other _ _ hq_foot _ hd4
    have hdF : anySatF isPrintfooterDiv (childrenOf m') = false := by
      rw [← hm']
      exact anySatF_children_lawStep isPrintfooterDiv hq_foot (fun _ => rfl) hdem_foot m5 hg5 hd5
    -- graytext divs
    have he5 : anySatF isGraytextDiv (childrenOf m5) = false := by
      rw [hm5, childrenOf_removeAll]
      exact anySatF_removeAllF isGraytextDiv hq_gray (childrenOf m4)
    have heF : anySatF isGraytextDiv (childrenOf m') = false := by
      rw [← hm']
      exact anySatF_children_lawStep isGraytextDiv hq_gray (fun _ => rfl) hdem_gray m5 hg5 he5
    -- fixed point of the law step and the guard
    have hfix : lawStep m' = m' := by rw [← hm']; exact lawStep_idem m5
    have hok' : stringsOk m' = true := by rw [← hm']; exact stringsOk_lawStep m5
    -- root data
    have hroot : tagOf m' = tagOf mc ∧ idOf m' = idOf mc ∧ classesOf m' = classesOf mc := by
      rw [← hm', hm5, hm4, hm3, hm2, hm1]
      refine ⟨?_, ?_, ?_⟩
      · rw [tagOf_lawStep]
        simp only [tagOf_removeAll]
      · rw [idOf_lawStep]
        simp only [idOf_removeAll]
      · rw [classesOf_lawStep]
        simp only [classesOf_removeAll]
    exact ⟨haF, hbF, hcF, hdF, heF, hfix, hok', hroot.1, hroot.2.1, hroot.2.2⟩
  · rw [if_pos True.intro, if_neg hok] at hs
    exact absurd hs (by simp)

/-- Pass-two sanitization of an already-sanitized container is the
identity. -/
theorem sanitizeContent_fixpoint (mc m' : HNode)
    (hg : goodAnchors mc = true)
    (hs : sanitizeContent true mc = some m') :
    sanitizeContent true m' = some m' := by
  obtain ⟨h1, h2, h3, h4, h5, hfix, hok, _, _, _⟩ :=
    sanitize_children_clear mc m' hg hs
  have s1 := removeAll_eq_of_childrenClear isImg m' h1
  have s2 := removeAll_eq_of_childrenClear isEditSpan m' h2
  have s3 := removeAll_eq_of_childrenClear isPrintonlySpan m' h3
  have s4 := removeAll_eq_of_childrenClear isPrintfooterDiv m' h4
  have s5 := removeAll_eq_of_childrenClear isGraytextDiv m' h5
  have hdef : sanitizeContent true m'
      = (if stringsOk (removeAll isGraytextDiv (removeAll isPrintfooterDiv
            (removeAll isPrintonlySpan (removeAll isEditSpan (removeAll isImg m'))))) = true
         then some (lawStep (removeAll isGraytextDiv (removeAll isPrintfooterDiv
            (removeAll isPrintonlySpan (removeAll isEditSpan (removeAll isImg m'))))))
         else none) := rfl
  rw [hdef, s1, s2, s3, s4, s5, if_pos hok, hfix]

/-! ### Main sanitizer theorems -/

theorem anySat_templateDoc (q : HNode → Bool)
    (hhtml : ∀ ch, q (.helem "html" "" [] "" ch) = false)
    (hhead : ∀ ch, q (.helem "head" "" [] "" ch) = false)
    (hmeta : q (.helem "meta" "" [] "" .hnil) = false)
    (hlink : q (.helem "link" "" [] "" .hnil) = false)
    (hbody : ∀ ch, q (.helem "body" "" [] "" ch) = false) (m : HNode) :
    anySat q (templateDoc m) = anySat q m := by
  simp [templateDoc, headForest, anySat, anySatF, hhtml, hhead, hmeta, hlink, hbody]

theorem anySat_root_children (q : HNode → Bool) (n : HNode) :
    anySat q n = (q n || anySatF q (childrenOf n)) := by
  cases n <;> simp [anySat, anySatF, childrenOf]

theorem isImg_false_of_tag (n : HNode) (h : ¬ tagOf n = "img") :
    isImg n = false := by
  cases n with
  | htext s => rfl
  | helem t i cs hr ch =>
    simp only [tagOf] at h
    simp [isImg, h]

theorem isEditSpan_false_of_tag (n : HNode) (h : ¬ tagOf n = "span") :
    isEditSpan n = false := by
  cases n with
  | htext s => rfl
  | helem t i cs hr ch =>
    simp only [tagOf] at h
    simp [isEditSpan, h]

theorem isPrintonlySpan_false_of_tag (n : HNode) (h : ¬ tagOf n = "span") :
    isPrintonlySpan n = false := by
  cases n with
  | htext s => rfl
  | helem t i cs hr ch =>
    simp only [tagOf] at h
    simp [isPrintonlySpan, h]

theorem isPrintfooterDiv_false_of_classes (n : HNode)
    (h : (classesOf n).contains "printfooter" = false) :
    isPrintfooterDiv n = false := by
  cases n with
  | htext s => rfl
  | helem t i cs hr ch =>
    simp only [classesOf] at h
    simp only [isPrintfooterDiv, h, Bool.and_false]

theorem isGraytextDiv_false_of_classes (n : HNode)
    (h : (classesOf n).contains "graytext" = false) :
    isGraytextDiv n = false := by
  cases n with
  | htext s => rfl
  | helem t i cs hr ch =>
    simp only [classesOf] at h
    simp only [isGraytextDiv, h, Bool.and_false]

/-- Condition of the amended C7: the found container itself does not carry
one of the div marker classes (the source's `find_all` only removes
descendants, never the container). -/
def containerOk (doc : HNode) : Bool :=
  match findContentDiv doc with
  | some mc =>
    !(classesOf mc).contains "printfooter" && !(classesOf mc).contains "graytext"
  | none => true

/-- Claim C8, amended.  Sanitization is idempotent on every page whose
law-number anchors are free of the span marker classes (`mw-editsection`,
`printonly`): if `extract_law_content` returns a document, re-extracting
from that document returns it unchanged.  (Without the anchor condition
this fails — see the counterexample — because a demoted link span inherits
the anchor's classes and is removed by the second pass.) -/
theorem extract_idempotent_on_good (doc out : HNode)
    (hg : goodAnchors doc = true)
    (he : extract_law_content true doc = some out) :
    extract_law_content true out = some out := by
  cases hf : findContentDiv doc with
  | none =>
    rw [extract_law_content, hf] at he
    exact Option.noConfusion he
  | some mc =>
    have hexp : extract_law_content true doc
        = (match sanitizeContent true mc with
           | none => none
           | some m => some (templateDoc m)) := by
      rw [extract_law_content, hf]
    cases hsan : sanitizeContent true mc with
    | none =>
      rw [hexp, hsan] at he
      exact Option.noConfusion he
    | some m' =>
      rw [hexp, hsan] at he
      obtain rfl : templateDoc m' = out := Option.some.inj he
      obtain ⟨hgmc, htag, hid⟩ := findContentDiv_good doc hg mc hf
      obtain ⟨_, _, _, _, _, _, _, ht', hi', _⟩ :=
        sanitize_children_clear mc m' hgmc hsan
      have hself : findContentDiv m' = some m' :=
        findContentDiv_self m' (by rw [ht', htag]) (by rw [hi', hid])
      have hfind : findContentDiv (templateDoc m') = some m' := by
        simp [templateDoc, findContentDiv, findContentDivF, headForest, hself]
      have hsan' : sanitizeContent true m' = some m' :=
        sanitizeContent_fixpoint mc m' hgmc hsan
      unfold extract_law_content
      rw [hfind]
      show (match sanitizeContent true m' with
            | none => none
            | some m => some (templateDoc m)) = some (templateDoc m')
      rw [hsan']

/-- Claim C7, amended.  For every page whose container is present, whose
container element does not itself carry a div marker class, and whose
law-number anchors are free of the span marker classes, the returned
document contains no image element, no span with class `mw-editsection` or
`printonly`, and no div with class `printfooter` or `graytext`.  (Both
extra conditions are forced by the code: the container is never removed by
`find_all`, and a demoted link span inherits its anchor's classes — see
the counterexample.) -/
theorem sanitized_output_clean (doc out : HNode)
    (hg : goodAnchors doc = true)
    (hc : containerOk doc = true)
    (he : extract_law_content true doc = some out) :
    anySat isImg out = false ∧ anySat isEditSpan out = false
    ∧ anySat isPrintonlySpan out = false ∧ anySat isPrintfooterDiv out = false
    ∧ anySat isGraytextDiv out = false := by
  cases hf : findContentDiv doc with
  | none =>
    rw [extract_law_content, hf] at he
    exact Option.noConfusion he
  | some mc =>
    have hexp : extract_law_content true doc
        = (match sanitizeContent true mc with
           | none => none
           | some m => some (templateDoc m)) := by
      rw [extract_law_content, hf]
    cases hsan : sanitizeContent true mc with
    | none =>
      rw [hexp, hsan] at he
      exact Option.noConfusion he
    | some m' =>
      rw [hexp, hsan] at he
      obtain rfl : templateDoc m' = out := Option.some.inj he
      obtain ⟨hgmc, htag, hid⟩ := findContentDiv_good doc hg mc hf
      obtain ⟨h1, h2, h3, h4, h5, _, _, ht', hi', hcls'⟩ :=
        sanitize_children_clear mc m' hgmc hsan
      have hcmc : (classesOf mc).contains "printfooter" = false
          ∧ (classesOf mc).contains "graytext" = false := by
        simpa [containerOk, hf, Bool.not_eq_true'] using hc
      refine ⟨?_, ?_, ?_, ?_, ?_⟩
      · rw [anySat_templateDoc isImg (fun _ => by simp [isImg])
          (fun _ => by simp [isImg]) (by simp [isImg]) (by simp [isImg])
          (fun _ => by simp [isImg]) m']
        rw [anySat_root_children, h1,
          isImg_false_of_tag m' (by rw [ht', htag]; simp)]
        rfl
      · rw [anySat_templateDoc isEditSpan (fun _ => by simp [isEditSpan])
          (fun _ => by simp [isEditSpan]) (by simp [isEditSpan]) (by simp [isEditSpan])
          (fun _ => by simp [isEditSpan]) m']
        rw [anySat_root_children, h2,
          isEditSpan_false_of_tag m' (by rw [ht', htag]; simp)]
        rfl
      · rw [anySat_templateDoc isPrintonlySpan (fun _ => by simp [isPrintonlySpan])
          (fun _ => by simp [isPrintonlySpan]) (by simp [isPrintonlySpan])
          (by simp [isPrintonlySpan]) (fun _ => by simp [isPrintonlySpan]) m']
        rw [anySat_root_children, h3,
          isPrintonlySpan_false_of_tag m' (by rw [ht', htag]; simp)]
        rfl
      · rw [anySat_templateDoc isPrintfooterDiv (fun _ => by simp [isPrintfooterDiv])
          (fun _ => by simp [isPrintfooterDiv]) (by simp [isPrintfooterDiv])
          (by simp [isPrintfooterDiv]) (fun _ => by simp [isPrintfooterDiv]) m']
        rw [anySat_root_children, h4,
          isPrintfooterDiv_false_of_classes m' (by rw [hcls']; exact hcmc.1)]
        rfl
      · rw [anySat_templateDoc isGraytextDiv (fun _ => by simp [isGraytextDiv])
          (fun _ => by simp [isGraytextDiv]) (by simp [isGraytextDiv])
          (by simp [isGraytextDiv]) (fun _ => by simp [isGraytextDiv]) m']
        rw [anySat_root_children, h5,
          isGraytextDiv_false_of_classes m' (by rw [hcls']; exact hcmc.2)]
        rfl

/-- Counterexample document: a law-number container whose direct-child
anchor carries the `printonly` marker class. -/
def badAnchorDoc : HNode :=
  .helem "div" "mw-content-text" [] ""
    (.hcons (.helem "div" "" ["law-number"] ""
      (.hcons (.helem "a" "" ["printonly"] "u" (.hcons (.htext "5") .hnil)) .hnil))
      .hnil)

/-- Claim C7, counterexample.  On `badAnchorDoc` the container is present,
yet the returned document contains a span bearing the configured
`printonly` marker class (the demoted link span inherited it from the
anchor), so the claim as stated is false. -/
theorem sanitized_output_clean_counterexample :
    (extract_law_content true badAnchorDoc).map (anySat isPrintonlySpan)
      = some true := by
  rfl

/-- Claim C8, counterexample.  Re-extracting from the document produced
for `badAnchorDoc` does not return it unchanged: the second pass removes
the inherited `printonly` span, so sanitization is not idempotent as
stated. -/
theorem extract_idempotent_counterexample :
    ¬ ((extract_law_content true badAnchorDoc).bind (extract_law_content true)
        = extract_law_content true badAnchorDoc) := by
  intro hcontra
  have h2 := congrArg (Option.map (anySat isPrintonlySpan)) hcontra
  have hL : ((extract_law_content true badAnchorDoc).bind
      (extract_law_content true)).map (anySat isPrintonlySpan) = some false := rfl
  have hR : (extract_law_content true badAnchorDoc).map (anySat isPrintonlySpan)
      = some true := rfl
  rw [hL, hR] at h2
  exact Option.noConfusion h2 (fun hb => Bool.noConfusion hb)

/-- Well-behaved witness document: a law-number link without marker
classes, next to an image that sanitization must drop. -/
def goodLawDoc : HNode :=
  .helem "div" "mw-content-text" [] ""
    (.hcons (.helem "div" "" ["law-number"] ""
      (.hcons (.helem "a" "" [] "u" (.hcons (.htext "5") .hnil)) .hnil))
      (.hcons (.helem "img" "" [] "" .hnil) .hnil))

theorem sanitized_output_clean_witness :
    anySat isImg ((extract_law_content true goodLawDoc).getD (.htext "")) = false
    ∧ anySat isEditSpan ((extract_law_content true goodLawDoc).getD (.htext "")) = false
    ∧ anySat isPrintonlySpan ((extract_law_content true goodLawDoc).getD (.htext "")) = false
    ∧ anySat isPrintfooterDiv ((extract_law_content true goodLawDoc).getD (.htext "")) = false
    ∧ anySat isGraytextDiv ((extract_law_content true goodLawDoc).getD (.htext "")) = false :=
  sanitized_output_clean goodLawDoc
    ((extract_law_content true goodLawDoc).getD (.htext ""))
    (by decide) (by decide) rfl

theorem extract_idempotent_on_good_witness :
    extract_law_content true ((extract_law_content true goodLawDoc).getD (.htext ""))
      = some ((extract_law_content true goodLawDoc).getD (.htext "")) :=
  extract_idempotent_on_good goodLawDoc
    ((extract_law_content true goodLawDoc).getD (.htext "")) (by decide) rfl
